import Mathlib

/-!
Verification of the icon generator script `create-logos.py`.

The script builds square RGBA raster images: a vertical blue gradient, a
rounded-rectangle alpha mask, a crab drawn from geometric primitives, and a
white highlight band composited on top; it then writes the results as PNG
files into mirrored `public` and `dist` trees.

The embedding below models images as total pixel functions together with
their declared dimensions.  Drawing commands are transcribed from the source
one by one; the rasterization of each primitive (which pixels a filled
ellipse, polygon or wide line touches) is modelled by the natural geometric
coverage predicate.  Every drawing coordinate is exact: the scale products
`int(k * size / 128)` divide by a power of two, so binary64 computes them
exactly and Nat division transcribes them faithfully.  The gradient and
highlight interpolations, however, are evaluated by the script in binary64
floating point; `fl` below models that arithmetic exactly (round to
nearest, ties to even, 53-bit significand), and `gradientChannelF` and
`highlight_alphaF` are the bitwise-faithful per-value semantics.  The
exact-rational idealizations `gradientChannel` and `highlight_alpha` are
kept alongside for the composite pipeline and are related to the float
semantics where a claim depends on per-value agreement.
-/

/-- RGBA pixel with Nat channels (the script works in 8-bit channels). -/
structure RGBA where
  r : Nat
  g : Nat
  b : Nat
  a : Nat
deriving DecidableEq

/-- RGBA raster image: declared dimensions plus a total pixel function
(pixels outside the declared bounds are the transparent black that
`Image.new` starts from). -/
structure Img where
  width : Nat
  height : Nat
  pix : Nat → Nat → RGBA

/-- Single-channel (mode L) image, used for the alpha mask. -/
structure GrayImg where
  width : Nat
  height : Nat
  pix : Nat → Nat → Nat

/-- BLUE_LIGHT constant of the script (#0A84FF). -/
def BLUE_LIGHT : Nat × Nat × Nat := (10, 132, 255)

/-- BLUE_DARK constant of the script (#005AC8). -/
def BLUE_DARK : Nat × Nat × Nat := (0, 90, 200)

/-- WHITE constant of the script. -/
def WHITE : Nat × Nat × Nat := (255, 255, 255)

/-- Drawing with an RGB fill on an RGBA surface uses the opaque ink. -/
def inkOf (c : Nat × Nat × Nat) : RGBA := ⟨c.1, c.2.1, c.2.2, 255⟩

/-- Idealized exact-rational value of one gradient channel: the floor of
the exact interpolation `c1 * (1 - y/size) + c2 * (y/size)`, written with
Nat division.  The script evaluates the same expression in binary64
floating point; the bitwise-faithful semantics is `gradientChannelF`,
which stays within one of this ideal value. -/
def gradientChannel (size y c1 c2 : Nat) : Nat :=
  (c1 * (size - y) + c2 * y) / size

/-- Embedding of `create_gradient` with the idealized channel values: a
size x size image whose row `y` holds the interpolated color with alpha 255
(every row `0 <= y < size` is covered by a full-width line); the
bitwise-faithful per-channel values are those of `create_gradientF`. -/
def create_gradient (size : Nat) (color1 color2 : Nat × Nat × Nat) : Img :=
  ⟨size, size, fun x y =>
    if x < size ∧ y < size then
      ⟨gradientChannel size y color1.1 color2.1,
       gradientChannel size y color1.2.1 color2.2.1,
       gradientChannel size y color1.2.2 color2.2.2, 255⟩
    else ⟨0, 0, 0, 0⟩⟩

/-- Corner radius used by `create_icon`: `radius = size // 5`. -/
def icon_radius (size : Nat) : Nat := size / 5

/-- Membership in the rounded rectangle `[0, 0, size-1, size-1]` with the
given corner radius: inside the square, and inside the quarter-disc at each
of the four corner squares. -/
def roundedRectCovers (size radius : Nat) (x y : Nat) : Bool :=
  let xi : Int := x
  let yi : Int := y
  let ri : Int := radius
  let si : Int := size
  let inCorner : Int → Int → Bool := fun cx cy =>
    decide ((xi - cx) ^ 2 + (yi - cy) ^ 2 ≤ ri ^ 2)
  if xi < ri ∧ yi < ri then inCorner ri ri
  else if si - 1 - ri < xi ∧ yi < ri then inCorner (si - 1 - ri) ri
  else if xi < ri ∧ si - 1 - ri < yi then inCorner ri (si - 1 - ri)
  else if si - 1 - ri < xi ∧ si - 1 - ri < yi then inCorner (si - 1 - ri) (si - 1 - ri)
  else true

/-- Embedding of the mask built by `create_icon`: a mode-L image, 0
everywhere except 255 inside the rounded rectangle of radius `size // 5`. -/
def icon_mask (size : Nat) : GrayImg :=
  ⟨size, size, fun x y =>
    if x < size ∧ y < size ∧ roundedRectCovers size (icon_radius size) x y then 255
    else 0⟩

/-- Embedding of `img.putalpha(mask)`: replace the alpha channel with the
mask value, keeping the color channels. -/
def putalpha (img : Img) (mask : GrayImg) : Img :=
  ⟨img.width, img.height, fun x y =>
    ⟨(img.pix x y).r, (img.pix x y).g, (img.pix x y).b, mask.pix x y⟩⟩

/-- Drawing primitives issued by the script. -/
inductive Cmd where
  | ellipse (x0 y0 x1 y1 : Int) (fill : RGBA)
  | rectangle (x0 y0 x1 y1 : Int) (fill : RGBA)
  | polygon (pts : List (Int × Int)) (fill : RGBA)
  | line (x0 y0 x1 y1 : Int) (fill : RGBA) (lineWidth : Nat)
deriving DecidableEq

/-- Ink carried by a drawing command. -/
def Cmd.fill : Cmd → RGBA
  | .ellipse _ _ _ _ f => f
  | .rectangle _ _ _ _ f => f
  | .polygon _ f => f
  | .line _ _ _ _ f _ => f

/-- Whether a command is a line primitive. -/
def Cmd.isLine : Cmd → Bool
  | .line _ _ _ _ _ _ => true
  | _ => false

/-- Stroke width of a line primitive (0 for other primitives). -/
def Cmd.strokeWidth : Cmd → Nat
  | .line _ _ _ _ _ w => w
  | _ => 0

/-- Point inside the filled ellipse of bounding box `[x0, y0, x1, y1]`. -/
def inEllipse (x0 y0 x1 y1 x y : Int) : Bool :=
  let a := x1 - x0
  let b := y1 - y0
  decide (x0 ≤ x ∧ x ≤ x1 ∧ y0 ≤ y ∧ y ≤ y1) &&
    decide ((2 * x - x0 - x1) ^ 2 * b ^ 2 + (2 * y - y0 - y1) ^ 2 * a ^ 2 ≤ a ^ 2 * b ^ 2)

/-- Point inside the filled axis-aligned rectangle `[x0, y0, x1, y1]`. -/
def inRect (x0 y0 x1 y1 x y : Int) : Bool :=
  decide (x0 ≤ x ∧ x ≤ x1 ∧ y0 ≤ y ∧ y ≤ y1)

/-- Twice the signed area of the triangle `o p q`. -/
def cross2 (o p q : Int × Int) : Int :=
  (p.1 - o.1) * (q.2 - o.2) - (p.2 - o.2) * (q.1 - o.1)

/-- Point inside the filled triangle `p1 p2 p3`. -/
def inTriangle (p1 p2 p3 q : Int × Int) : Bool :=
  let c1 := cross2 p1 p2 q
  let c2 := cross2 p2 p3 q
  let c3 := cross2 p3 p1 q
  decide (min p1.1 (min p2.1 p3.1) ≤ q.1 ∧ q.1 ≤ max p1.1 (max p2.1 p3.1) ∧
      min p1.2 (min p2.2 p3.2) ≤ q.2 ∧ q.2 ≤ max p1.2 (max p2.2 p3.2)) &&
    decide ((0 ≤ c1 ∧ 0 ≤ c2 ∧ 0 ≤ c3) ∨ (c1 ≤ 0 ∧ c2 ≤ 0 ∧ c3 ≤ 0))

/-- Point inside a filled polygon; every polygon in the script is a
triangle. -/
def inPolygon : List (Int × Int) → Int → Int → Bool
  | [p1, p2, p3], x, y => inTriangle p1 p2 p3 (x, y)
  | _, _, _ => false

/-- Point within distance `w / 2` of the segment from `(x0, y0)` to
`(x1, y1)`: the stroked line of width `w`.  All quantities are scaled by the
squared segment length to stay in integers. -/
def onSegment (x0 y0 x1 y1 : Int) (w : Nat) (x y : Int) : Bool :=
  let dx := x1 - x0
  let dy := y1 - y0
  let l2 := dx * dx + dy * dy
  let tnum := (x - x0) * dx + (y - y0) * dy
  let tcl := max 0 (min l2 tnum)
  let ex := x * l2 - (x0 * l2 + tcl * dx)
  let ey := y * l2 - (y0 * l2 + tcl * dy)
  if l2 = 0 then decide (x = x0 ∧ y = y0)
  else decide (4 * (ex * ex + ey * ey) ≤ (w : Int) * w * l2 * l2)

/-- Pixel coverage of a drawing command. -/
def Cmd.covers : Cmd → Int → Int → Bool
  | .ellipse x0 y0 x1 y1 _, x, y => inEllipse x0 y0 x1 y1 x y
  | .rectangle x0 y0 x1 y1 _, x, y => inRect x0 y0 x1 y1 x y
  | .polygon pts _, x, y => inPolygon pts x y
  | .line x0 y0 x1 y1 _ w, x, y => onSegment x0 y0 x1 y1 w x y

/-- Applying one drawing command to an image: every covered in-bounds pixel
takes the fill ink, the rest are unchanged. -/
def applyCmd (im : Img) (c : Cmd) : Img :=
  ⟨im.width, im.height, fun x y =>
    if x < im.width ∧ y < im.height ∧ Cmd.covers c (x : Int) (y : Int) then Cmd.fill c
    else im.pix x y⟩

/-- Applying a list of drawing commands in order. -/
def applyCmds (im : Img) (cmds : List Cmd) : Img :=
  cmds.foldl applyCmd im

/-- Scaled design coordinate: the script computes `int(k * s)` with
`s = size / 128`, which equals `(k * size) / 128` in Nat division since
`k * size / 128` is exact in binary floating point. -/
def scaled (k size : Nat) : Int :=
  ((k * size) / 128 : Nat)

/-- Left leg line of index `i` drawn by the loop in `draw_crab`. -/
def left_leg_cmd (size : Nat) (color : RGBA) (i : Nat) : Cmd :=
  let cx : Int := (size / 2 : Nat)
  let cy : Int := (size / 2 : Nat)
  let y := cy + scaled 10 size + (i : Int) * scaled 10 size
  let leg_len := scaled 20 size
  Cmd.line (cx - scaled 35 size) y (cx - scaled 35 size - leg_len) (y + leg_len / 2)
    color (max 1 ((4 * size) / 128))

/-- Right leg line of index `i` drawn by the loop in `draw_crab`. -/
def right_leg_cmd (size : Nat) (color : RGBA) (i : Nat) : Cmd :=
  let cx : Int := (size / 2 : Nat)
  let cy : Int := (size / 2 : Nat)
  let y := cy + scaled 10 size + (i : Int) * scaled 10 size
  let leg_len := scaled 20 size
  Cmd.line (cx + scaled 35 size) y (cx + scaled 35 size + leg_len) (y + leg_len / 2)
    color (max 1 ((4 * size) / 128))

/-- Embedding of `draw_crab`: the ordered list of drawing commands it
issues (body ellipse, eye stalks and eyes, claws with pincers, then the leg
loop: three iterations drawing a left and a right leg each). -/
def draw_crab (size : Nat) (color : RGBA) : List Cmd :=
  let cx : Int := (size / 2 : Nat)
  let cy : Int := (size / 2 : Nat)
  let body_w := scaled 40 size
  let body_h := scaled 28 size
  let eye_y := cy - scaled 15 size
  let eye_spacing := scaled 18 size
  let eye_r := scaled 6 size
  let stalk_w := scaled 3 size
  let claw_y := cy - scaled 5 size
  let claw_w := scaled 20 size
  let claw_h := scaled 15 size
  let claw_offset := scaled 45 size
  [Cmd.ellipse (cx - body_w) (cy - body_h + scaled 5 size)
     (cx + body_w) (cy + body_h + scaled 5 size) color,
   Cmd.rectangle (cx - eye_spacing - stalk_w / 2) eye_y
     (cx - eye_spacing + stalk_w / 2) (cy - scaled 5 size) color,
   Cmd.ellipse (cx - eye_spacing - eye_r) (eye_y - eye_r)
     (cx - eye_spacing + eye_r) (eye_y + eye_r) color,
   Cmd.rectangle (cx + eye_spacing - stalk_w / 2) eye_y
     (cx + eye_spacing + stalk_w / 2) (cy - scaled 5 size) color,
   Cmd.ellipse (cx + eye_spacing - eye_r) (eye_y - eye_r)
     (cx + eye_spacing + eye_r) (eye_y + eye_r) color,
   Cmd.ellipse (cx - claw_offset - claw_w) (claw_y - claw_h / 2)
     (cx - claw_offset + claw_w / 2) (claw_y + claw_h / 2) color,
   Cmd.polygon [(cx - claw_offset - claw_w, claw_y - scaled 5 size),
     (cx - claw_offset - claw_w - scaled 10 size, claw_y - scaled 10 size),
     (cx - claw_offset - claw_w, claw_y)] color,
   Cmd.polygon [(cx - claw_offset - claw_w, claw_y + scaled 5 size),
     (cx - claw_offset - claw_w - scaled 10 size, claw_y + scaled 10 size),
     (cx - claw_offset - claw_w, claw_y)] color,
   Cmd.ellipse (cx + claw_offset - claw_w / 2) (claw_y - claw_h / 2)
     (cx + claw_offset + claw_w) (claw_y + claw_h / 2) color,
   Cmd.polygon [(cx + claw_offset + claw_w, claw_y - scaled 5 size),
     (cx + claw_offset + claw_w + scaled 10 size, claw_y - scaled 10 size),
     (cx + claw_offset + claw_w, claw_y)] color,
   Cmd.polygon [(cx + claw_offset + claw_w, claw_y + scaled 5 size),
     (cx + claw_offset + claw_w + scaled 10 size, claw_y + scaled 10 size),
     (cx + claw_offset + claw_w, claw_y)] color]
  ++ (List.range 3).flatMap (fun i => [left_leg_cmd size color i, right_leg_cmd size color i])

/-- Idealized exact-rational alpha of the highlight line at row `y`: the
floor of `80 * (t - y) / t` with `t = size // 3` for `y < t`, and 0 at
lower rows, where the script draws nothing.  The script evaluates
`int(80 * (1 - y / t))` in binary64 floating point; the bitwise-faithful
value is `highlight_alphaF`, which can sit one level below this ideal on
some rows of the band. -/
def highlight_alpha (size y : Nat) : Nat :=
  if y < size / 3 then (80 * (size / 3 - y)) / (size / 3) else 0

/-- Idealized highlight image used in the composite pipeline: transparent
except for the full-width white lines drawn on rows `0 <= y < size // 3`;
the bitwise-faithful version is `highlight_imgF`. -/
def highlight_img (size : Nat) : Img :=
  ⟨size, size, fun x y =>
    if x < size ∧ y < size / 3 then ⟨255, 255, 255, highlight_alpha size y⟩
    else ⟨0, 0, 0, 0⟩⟩

/-- Per-pixel alpha compositing of `src` over `dst`, the exact rational
semantics of `Image.alpha_composite` on 8-bit channels: `outA` here is
`255 ^ 2` times the real output alpha. -/
def composite_pixel (dst src : RGBA) : RGBA :=
  let outA := src.a * 255 + dst.a * (255 - src.a)
  if outA = 0 then ⟨0, 0, 0, 0⟩
  else ⟨(src.r * src.a * 255 + dst.r * (dst.a * (255 - src.a))) / outA,
        (src.g * src.a * 255 + dst.g * (dst.a * (255 - src.a))) / outA,
        (src.b * src.a * 255 + dst.b * (dst.a * (255 - src.a))) / outA,
        outA / 255⟩

/-- Embedding of `Image.alpha_composite(dst, src)`. -/
def alpha_composite (dst src : Img) : Img :=
  ⟨dst.width, dst.height, fun x y => composite_pixel (dst.pix x y) (src.pix x y)⟩

/-- Gradient stage of `create_icon` with the mask already applied via
`putalpha`. -/
def masked_img (size : Nat) : Img :=
  putalpha (create_gradient size BLUE_LIGHT BLUE_DARK) (icon_mask size)

/-- State of the icon after `draw_crab` has drawn on the masked gradient. -/
def crab_img (size : Nat) : Img :=
  applyCmds (masked_img size) (draw_crab size (inkOf WHITE))

/-- Embedding of `create_icon`: gradient, mask, crab, then the highlight
composited on top. -/
def create_icon (size : Nat) : Img :=
  alpha_composite (crab_img size) (highlight_img size)

/-- Embedding of the filesystem writes performed by `main`: the list of
(path, icon size) pairs in the order the script saves them.  A path is the
list of its components; `script_dir` is the directory holding the script
and `ext_dir` its parent, exactly as `os.path.dirname` computes them. -/
def main_writes (script_dir : List String) : List (List String × Nat) :=
  let ext_dir := script_dir.dropLast
  let public_icons := ext_dir ++ ["public", "icons"]
  let dist_icons := ext_dir ++ ["dist", "icons"]
  (([16, 48, 128] : List Nat).flatMap fun size =>
    [(public_icons ++ ["icon" ++ toString size ++ ".png"], size),
     (dist_icons ++ ["icon" ++ toString size ++ ".png"], size)])
  ++ [(ext_dir ++ ["public", "logo-square.png"], 256),
      (ext_dir ++ ["dist", "logo-square.png"], 256)]

/-- Every channel of every pixel of the image is a valid 8-bit value. -/
def Bounded (im : Img) : Prop :=
  ∀ x y : Nat,
    (im.pix x y).r ≤ 255 ∧ (im.pix x y).g ≤ 255 ∧ (im.pix x y).b ≤ 255 ∧ (im.pix x y).a ≤ 255

/-- Round a rational to the nearest integer, ties to even: the rounding of
an IEEE 754 significand. -/
def rne (x : ℚ) : ℤ :=
  if x - ⌊x⌋ < 1 / 2 then ⌊x⌋
  else if 1 / 2 < x - ⌊x⌋ then ⌊x⌋ + 1
  else if ⌊x⌋ % 2 = 0 then ⌊x⌋ else ⌊x⌋ + 1

/-- Round a nonnegative rational to the nearest IEEE 754 binary64 value:
53-bit significand, round to nearest, ties to even.  The exponent is left
unbounded, which agrees with binary64 throughout the script's value range
(every value is 0 or lies between 2 to the -17 and 2 to the 16, far from
overflow and from the subnormal range). -/
def fl (q : ℚ) : ℚ :=
  if q = 0 then 0
  else (rne (q * 2 ^ (-(Int.log 2 q - 52))) : ℚ) * 2 ^ (Int.log 2 q - 52)

/-- Bitwise-faithful float semantics of one gradient channel: CPython
evaluates `int(c1 * (1 - ratio) + c2 * ratio)` with `ratio = y / size` in
binary64, every operation correctly rounded; `int` truncation is the floor
on these nonnegative values. -/
def gradientChannelF (size y c1 c2 : Nat) : ℤ :=
  ⌊fl (fl ((c1 : ℚ) * fl (1 - fl ((y : ℚ) / (size : ℚ)))) +
      fl ((c2 : ℚ) * fl ((y : ℚ) / (size : ℚ))))⌋

/-- Bitwise-faithful float image of `create_gradient`. -/
def create_gradientF (size : Nat) (color1 color2 : Nat × Nat × Nat) : Img :=
  ⟨size, size, fun x y =>
    if x < size ∧ y < size then
      ⟨(gradientChannelF size y color1.1 color2.1).toNat,
       (gradientChannelF size y color1.2.1 color2.2.1).toNat,
       (gradientChannelF size y color1.2.2 color2.2.2).toNat, 255⟩
    else ⟨0, 0, 0, 0⟩⟩

/-- Bitwise-faithful float semantics of the highlight alpha
`int(80 * (1 - y / (size // 3)))` for the rows the script draws, and 0 at
the rows it leaves untouched. -/
def highlight_alphaF (size y : Nat) : Nat :=
  if y < size / 3 then
    (⌊fl (80 * fl (1 - fl ((y : ℚ) / ((size / 3 : Nat) : ℚ))))⌋).toNat
  else 0

/-- Bitwise-faithful float version of the highlight image. -/
def highlight_imgF (size : Nat) : Img :=
  ⟨size, size, fun x y =>
    if x < size ∧ y < size / 3 then ⟨255, 255, 255, highlight_alphaF size y⟩
    else ⟨0, 0, 0, 0⟩⟩

/-! Lemmas about round-to-nearest-even and the binary64 rounding map `fl`,
used to relate the float semantics to the idealized integer arithmetic. -/

lemma rne_intCast (i : ℤ) : rne (i : ℚ) = i := by
  unfold rne
  rw [Int.floor_intCast, sub_self]
  norm_num

lemma floor_le_rne (x : ℚ) : ⌊x⌋ ≤ rne x := by
  unfold rne
  split_ifs <;> omega

lemma rne_le_floor_add_one (x : ℚ) : rne x ≤ ⌊x⌋ + 1 := by
  unfold rne
  split_ifs <;> omega

lemma abs_rne_sub_le (x : ℚ) : |(rne x : ℚ) - x| ≤ 1 / 2 := by
  have h1 := Int.floor_le x
  have h2 := Int.lt_floor_add_one x
  unfold rne
  split_ifs with hA hB hC <;>
    (rw [abs_le]; constructor <;> (push_cast; linarith))

lemma rne_mono {x y : ℚ} (h : x ≤ y) : rne x ≤ rne y := by
  rcases lt_or_ge ⌊x⌋ ⌊y⌋ with hf | hf
  · calc rne x ≤ ⌊x⌋ + 1 := rne_le_floor_add_one x
      _ ≤ ⌊y⌋ := by omega
      _ ≤ rne y := floor_le_rne y
  · have hfe : ⌊x⌋ = ⌊y⌋ := le_antisymm (Int.floor_le_floor h) hf
    unfold rne
    rw [hfe]
    split_ifs <;> first | omega | (exfalso; rw [hfe] at *; linarith)

lemma rne_eval_lo {x : ℚ} {f : ℤ} (h1 : (f : ℚ) ≤ x) (h2 : x < (f : ℚ) + 1 / 2) :
    rne x = f := by
  have hf : ⌊x⌋ = f := Int.floor_eq_iff.mpr ⟨h1, by linarith⟩
  unfold rne
  rw [hf, if_pos (by linarith)]

lemma rne_eval_hi {x : ℚ} {f : ℤ} (h1 : (f : ℚ) + 1 / 2 < x) (h2 : x < (f : ℚ) + 1) :
    rne x = f + 1 := by
  have hf : ⌊x⌋ = f := Int.floor_eq_iff.mpr ⟨by linarith, by linarith⟩
  unfold rne
  rw [hf, if_neg (by linarith), if_pos (by linarith)]

lemma rne_eval_tie_even {x : ℚ} {f : ℤ} (h1 : x = (f : ℚ) + 1 / 2) (h2 : f % 2 = 0) :
    rne x = f := by
  have hf : ⌊x⌋ = f := Int.floor_eq_iff.mpr ⟨by rw [h1]; linarith, by rw [h1]; linarith⟩
  unfold rne
  rw [hf, if_neg (by rw [h1]; linarith), if_neg (by rw [h1]; linarith),
    if_pos h2]

lemma rne_eval_tie_odd {x : ℚ} {f : ℤ} (h1 : x = (f : ℚ) + 1 / 2) (h2 : f % 2 = 1) :
    rne x = f + 1 := by
  have hf : ⌊x⌋ = f := Int.floor_eq_iff.mpr ⟨by rw [h1]; linarith, by rw [h1]; linarith⟩
  unfold rne
  rw [hf, if_neg (by rw [h1]; linarith), if_neg (by rw [h1]; linarith),
    if_neg (by omega)]

lemma rne_eval_tie_odd2 {x : ℚ} {m : ℤ} (h1 : x = (m : ℚ) - 1 / 2) (h2 : m % 2 = 0) :
    rne x = m := by
  have h := @rne_eval_tie_odd x (m - 1) (by push_cast [h1]; ring) (by omega)
  omega

lemma fl_zero : fl 0 = 0 := by
  unfold fl
  norm_num

lemma fl_nonneg {q : ℚ} (hq : 0 ≤ q) : 0 ≤ fl q := by
  unfold fl
  split
  · exact le_refl 0
  · rename_i hq0
    have hqpos : 0 < q := lt_of_le_of_ne hq (Ne.symm hq0)
    have hm : (0 : ℚ) ≤ q * 2 ^ (-(Int.log 2 q - 52)) := by positivity
    have hr : (0 : ℤ) ≤ rne (q * 2 ^ (-(Int.log 2 q - 52))) := by
      have h1 := floor_le_rne (q * 2 ^ (-(Int.log 2 q - 52)))
      have h2 : (0 : ℤ) ≤ ⌊q * 2 ^ (-(Int.log 2 q - 52))⌋ := Int.floor_nonneg.mpr hm
      omega
    have : (0 : ℚ) ≤ (rne (q * 2 ^ (-(Int.log 2 q - 52))) : ℚ) := by exact_mod_cast hr
    positivity

lemma int_log_eq {q : ℚ} (e : ℤ) (hq : 0 < q) (h1 : (2 : ℚ) ^ e ≤ q)
    (h2 : q < (2 : ℚ) ^ (e + 1)) : Int.log 2 q = e := by
  have hb : 1 < 2 := by norm_num
  have ha : e ≤ Int.log 2 q := by
    rw [← Int.zpow_le_iff_le_log hb hq]
    exact_mod_cast h1
  have hc : Int.log 2 q < e + 1 := by
    rw [← Int.lt_zpow_iff_log_lt hb hq]
    exact_mod_cast h2
  omega

lemma fl_eval {q : ℚ} {e m : ℤ} (hq : 0 < q) (h1 : (2 : ℚ) ^ e ≤ q)
    (h2 : q < (2 : ℚ) ^ (e + 1)) (hm : rne (q * 2 ^ (52 - e)) = m) :
    fl q = (m : ℚ) * 2 ^ (e - 52) := by
  unfold fl
  rw [if_neg (ne_of_gt hq), int_log_eq e hq h1 h2, (by ring : -(e - 52) = 52 - e), hm]

lemma two_zpow_mul (a b : ℤ) : (2 : ℚ) ^ a * (2 : ℚ) ^ b = 2 ^ (a + b) :=
  (zpow_add₀ (by norm_num) a b).symm

lemma fl_natCast (k : ℕ) (hk : k ≤ 2 ^ 52) : fl (k : ℚ) = (k : ℚ) := by
  rcases Nat.eq_zero_or_pos k with hk0 | hk0
  · subst hk0
    simpa using fl_zero
  · have hkq : (0 : ℚ) < (k : ℚ) := by exact_mod_cast hk0
    have hlog : Int.log 2 ((k : ℕ) : ℚ) = (Nat.log 2 k : ℤ) := Int.log_natCast 2 k
    have hL : Nat.log 2 k ≤ 52 := by
      calc Nat.log 2 k ≤ Nat.log 2 (2 ^ 52) := Nat.log_mono_right hk
        _ = 52 := Nat.log_pow (by norm_num) 52
    set L : ℕ := Nat.log 2 k with hLdef
    set d : ℕ := 52 - L with hddef
    have hd : -((L : ℤ) - 52) = (d : ℤ) := by omega
    have hpow : (2 : ℚ) ^ ((d : ℕ) : ℤ) = ((2 ^ d : ℕ) : ℚ) := by
      rw [zpow_natCast]
      push_cast
      ring
    have hmant : (k : ℚ) * 2 ^ (-((L : ℤ) - 52)) = (((k * 2 ^ d : ℕ) : ℤ) : ℚ) := by
      rw [hd, hpow]
      push_cast
      ring
    unfold fl
    rw [if_neg (ne_of_gt hkq), hlog, hmant, rne_intCast]
    push_cast
    rw [mul_assoc, ← zpow_natCast (2 : ℚ) d, two_zpow_mul]
    have he : ((d : ℕ) : ℤ) + ((L : ℤ) - 52) = 0 := by omega
    rw [he, zpow_zero, mul_one]

lemma fl_one : fl 1 = 1 := by
  have := fl_natCast 1 (by norm_num)
  simpa using this

lemma abs_fl_sub_le {q : ℚ} (hq : 0 ≤ q) : |fl q - q| ≤ q / 2 ^ 53 := by
  rcases eq_or_lt_of_le hq with hq0 | hqpos
  · rw [← hq0, fl_zero]
    norm_num
  · unfold fl
    rw [if_neg (ne_of_gt hqpos)]
    set e : ℤ := Int.log 2 q with he
    set m : ℚ := q * 2 ^ (-(e - 52)) with hm
    have h2pos : (0 : ℚ) < 2 ^ (e - 52) := by positivity
    have hmq : m * 2 ^ (e - 52) = q := by
      rw [hm, mul_assoc, two_zpow_mul]
      norm_num
    have hstep : (rne m : ℚ) * 2 ^ (e - 52) - q = ((rne m : ℚ) - m) * 2 ^ (e - 52) := by
      rw [sub_mul, hmq]
    rw [hstep, abs_mul, abs_of_pos h2pos]
    have hrne := abs_rne_sub_le m
    have hlog : (2 : ℚ) ^ e ≤ q := by
      have := Int.zpow_log_le_self (by norm_num : (1 : ℕ) < 2) hqpos
      rw [← he] at this
      exact_mod_cast this
    calc |(rne m : ℚ) - m| * 2 ^ (e - 52) ≤ (1 / 2) * 2 ^ (e - 52) :=
          mul_le_mul_of_nonneg_right hrne (le_of_lt h2pos)
      _ = 2 ^ e / 2 ^ (53 : ℕ) := by
          rw [zpow_sub₀ (by norm_num : (2 : ℚ) ≠ 0) e 52]
          rw [(by norm_num : ((2 : ℚ) ^ (53 : ℕ)) = 2 ^ (52 : ℤ) * 2)]
          have h52 : (2 : ℚ) ^ (52 : ℤ) ≠ 0 := by positivity
          field_simp
          ring_nf
          exact Or.inl trivial
      _ ≤ q / 2 ^ (53 : ℕ) := by
          exact (div_le_div_iff_of_pos_right (by positivity)).mpr hlog

lemma fl_mono {x y : ℚ} (hx : 0 ≤ x) (hxy : x ≤ y) : fl x ≤ fl y := by
  rcases eq_or_lt_of_le hx with hx0 | hxpos
  · rw [← hx0, fl_zero]
    exact fl_nonneg (le_trans hx hxy)
  · have hypos : 0 < y := lt_of_lt_of_le hxpos hxy
    set ex : ℤ := Int.log 2 x with hex
    set ey : ℤ := Int.log 2 y with hey
    have hexy : ex ≤ ey := Int.log_mono_right hxpos hxy
    have h2x : (0 : ℚ) < 2 ^ (ex - 52) := by positivity
    have h2y : (0 : ℚ) < 2 ^ (ey - 52) := by positivity
    unfold fl
    rw [if_neg (ne_of_gt hxpos), if_neg (ne_of_gt hypos), ← hex, ← hey]
    rcases eq_or_lt_of_le hexy with heq | hlt
    · rw [← heq]
      apply mul_le_mul_of_nonneg_right _ (le_of_lt h2x)
      have hmm : x * 2 ^ (-(ex - 52)) ≤ y * 2 ^ (-(ex - 52)) :=
        mul_le_mul_of_nonneg_right hxy (by positivity)
      exact_mod_cast rne_mono hmm
    · have hxub : x < 2 ^ (ex + 1) := by
        have h := Int.lt_zpow_succ_log_self (by norm_num : (1 : ℕ) < 2) x
        rw [← hex] at h
        exact_mod_cast h
      have hylb : (2 : ℚ) ^ ey ≤ y := by
        have h := Int.zpow_log_le_self (by norm_num : (1 : ℕ) < 2) hypos
        rw [← hey] at h
        exact_mod_cast h
      have hmx : x * 2 ^ (-(ex - 52)) < 2 ^ (53 : ℤ) := by
        calc x * 2 ^ (-(ex - 52)) < 2 ^ (ex + 1) * 2 ^ (-(ex - 52)) :=
              mul_lt_mul_of_pos_right hxub (by positivity)
          _ = 2 ^ (53 : ℤ) := by rw [two_zpow_mul]; congr 1; ring
      have hrx : rne (x * 2 ^ (-(ex - 52))) ≤ 2 ^ 53 := by
        have h1 := rne_le_floor_add_one (x * 2 ^ (-(ex - 52)))
        have h2 : ⌊x * 2 ^ (-(ex - 52))⌋ < 2 ^ 53 := by
          rw [Int.floor_lt]
          exact_mod_cast hmx
        omega
      have hmy : (2 : ℚ) ^ (52 : ℤ) ≤ y * 2 ^ (-(ey - 52)) := by
        calc (2 : ℚ) ^ (52 : ℤ) = 2 ^ ey * 2 ^ (-(ey - 52)) := by
              rw [two_zpow_mul]; congr 1; ring
          _ ≤ y * 2 ^ (-(ey - 52)) := mul_le_mul_of_nonneg_right hylb (by positivity)
      have hry : (2 : ℤ) ^ 52 ≤ rne (y * 2 ^ (-(ey - 52))) := by
        have h1 := floor_le_rne (y * 2 ^ (-(ey - 52)))
        have h2 : (2 : ℤ) ^ 52 ≤ ⌊y * 2 ^ (-(ey - 52))⌋ := by
          rw [Int.le_floor]
          exact_mod_cast hmy
        omega
      calc (rne (x * 2 ^ (-(ex - 52))) : ℚ) * 2 ^ (ex - 52)
          ≤ (2 : ℚ) ^ (53 : ℤ) * 2 ^ (ex - 52) :=
            mul_le_mul_of_nonneg_right (by exact_mod_cast hrx) (le_of_lt h2x)
        _ = 2 ^ (ex + 1) := by rw [two_zpow_mul]; congr 1; ring
        _ ≤ 2 ^ ey := zpow_le_zpow_right₀ (by norm_num) (by omega)
        _ = (2 : ℚ) ^ (52 : ℤ) * 2 ^ (ey - 52) := by rw [two_zpow_mul]; congr 1; ring
        _ ≤ (rne (y * 2 ^ (-(ey - 52))) : ℚ) * 2 ^ (ey - 52) :=
            mul_le_mul_of_nonneg_right (by exact_mod_cast hry) (le_of_lt h2y)

lemma floor_natCast_div (p q : ℕ) : ⌊(p : ℚ) / (q : ℚ)⌋ = ((p / q : ℕ) : ℤ) := by
  rcases Nat.eq_zero_or_pos q with h | h
  · subst h
    simp
  · have hq : (0 : ℚ) < (q : ℚ) := by exact_mod_cast h
    refine Int.floor_eq_iff.mpr ⟨?_, ?_⟩
    · rw [le_div_iff₀ hq]
      exact_mod_cast Nat.div_mul_le_self p q
    · rw [div_lt_iff₀ hq]
      have hdm := Nat.div_add_mod p q
      have hmod := Nat.mod_lt p h
      have hcomm : (p / q) * q = q * (p / q) := Nat.mul_comm _ _
      push_cast
      have : p < (p / q + 1) * q := by
        have hexp : (p / q + 1) * q = (p / q) * q + q := by ring
        omega
      exact_mod_cast this

lemma gradientChannelF_close (n y a b : Nat) (hn : 0 < n) (hy : y < n)
    (ha : a ≤ 255) (hb : b ≤ 255) :
    0 ≤ gradientChannelF n y a b ∧
    (gradientChannel n y a b : ℤ) - 1 ≤ gradientChannelF n y a b ∧
    gradientChannelF n y a b ≤ (gradientChannel n y a b : ℤ) + 1 := by
  have hnq : (0 : ℚ) < (n : ℚ) := by exact_mod_cast hn
  obtain ⟨B, hB, hBpos, hBle, h768B⟩ :
      ∃ B : ℚ, B = 512 / 2 ^ 53 ∧ 0 ≤ B ∧ B ≤ 1 ∧ 768 * B ≤ 1 :=
    ⟨512 / 2 ^ 53, rfl, by norm_num, by norm_num, by norm_num⟩
  have hflB : ∀ q : ℚ, 0 ≤ q → q ≤ 512 → |fl q - q| ≤ B := by
    intro q h0 h512
    calc |fl q - q| ≤ q / 2 ^ 53 := abs_fl_sub_le h0
      _ ≤ 512 / 2 ^ 53 := (div_le_div_iff_of_pos_right (by positivity)).mpr h512
      _ = B := hB.symm
  obtain ⟨r0, hr0⟩ : ∃ r0 : ℚ, r0 = (y : ℚ) / (n : ℚ) := ⟨_, rfl⟩
  have hr00 : 0 ≤ r0 := by rw [hr0]; positivity
  have hr01 : r0 ≤ 1 := by
    rw [hr0, div_le_one hnq]
    exact_mod_cast hy.le
  obtain ⟨r, hr⟩ : ∃ r : ℚ, r = fl r0 := ⟨_, rfl⟩
  have hr_0 : 0 ≤ r := by rw [hr]; exact fl_nonneg hr00
  have hr_1 : r ≤ 1 := by
    rw [hr]
    calc fl r0 ≤ fl 1 := fl_mono hr00 hr01
      _ = 1 := fl_one
  have hrB : |r - r0| ≤ B := by rw [hr]; exact hflB r0 hr00 (by linarith)
  obtain ⟨u, hu⟩ : ∃ u : ℚ, u = fl (1 - r) := ⟨_, rfl⟩
  have hu_0 : 0 ≤ u := by rw [hu]; exact fl_nonneg (by linarith)
  have hu_1 : u ≤ 1 := by
    rw [hu]
    calc fl (1 - r) ≤ fl 1 := fl_mono (by linarith) (by linarith)
      _ = 1 := fl_one
  have huB : |u - (1 - r)| ≤ B := by rw [hu]; exact hflB (1 - r) (by linarith) (by linarith)
  have haq : (0 : ℚ) ≤ (a : ℚ) := by positivity
  have haq255 : (a : ℚ) ≤ 255 := by exact_mod_cast ha
  have hbq : (0 : ℚ) ≤ (b : ℚ) := by positivity
  have hbq255 : (b : ℚ) ≤ 255 := by exact_mod_cast hb
  obtain ⟨v, hv⟩ : ∃ v : ℚ, v = fl ((a : ℚ) * u) := ⟨_, rfl⟩
  have hau0 : 0 ≤ (a : ℚ) * u := mul_nonneg haq hu_0
  have hau255 : (a : ℚ) * u ≤ 255 := by
    calc (a : ℚ) * u ≤ 255 * 1 := mul_le_mul haq255 hu_1 hu_0 (by norm_num)
      _ = 255 := by norm_num
  have hv_0 : 0 ≤ v := by rw [hv]; exact fl_nonneg hau0
  have hvB : |v - (a : ℚ) * u| ≤ B := by
    rw [hv]; exact hflB _ hau0 (by linarith)
  obtain ⟨w, hw⟩ : ∃ w : ℚ, w = fl ((b : ℚ) * r) := ⟨_, rfl⟩
  have hbr0 : 0 ≤ (b : ℚ) * r := mul_nonneg hbq hr_0
  have hbr255 : (b : ℚ) * r ≤ 255 := by
    calc (b : ℚ) * r ≤ 255 * 1 := mul_le_mul hbq255 hr_1 hr_0 (by norm_num)
      _ = 255 := by norm_num
  have hw_0 : 0 ≤ w := by rw [hw]; exact fl_nonneg hbr0
  have hwB : |w - (b : ℚ) * r| ≤ B := by
    rw [hw]; exact hflB _ hbr0 (by linarith)
  obtain ⟨F, hF⟩ : ∃ F : ℚ, F = fl (v + w) := ⟨_, rfl⟩
  have hvw0 : 0 ≤ v + w := by linarith
  have hvw512 : v + w ≤ 512 := by
    have h1 := (abs_le.mp hvB).2
    have h2 := (abs_le.mp hwB).2
    linarith
  have hF_0 : 0 ≤ F := by rw [hF]; exact fl_nonneg hvw0
  have hFB : |F - (v + w)| ≤ B := by rw [hF]; exact hflB _ hvw0 hvw512
  -- identify the model value before discarding the defining equations
  have hgF : gradientChannelF n y a b = ⌊F⌋ := by
    rw [hF, hv, hu, hw, hr, hr0]
    rfl
  clear hF hv hu hw hr
  -- error propagation, now over opaque rationals only
  have e1 : |u - (1 - r0)| ≤ 2 * B := by
    have h1 : |(1 - r) - (1 - r0)| = |r - r0| := by
      rw [(by ring : (1 - r) - (1 - r0) = -(r - r0)), abs_neg]
    calc |u - (1 - r0)| ≤ |u - (1 - r)| + |(1 - r) - (1 - r0)| := abs_sub_le _ _ _
      _ = |u - (1 - r)| + |r - r0| := by rw [h1]
      _ ≤ B + B := add_le_add huB hrB
      _ = 2 * B := by ring
  have e2 : |v - (a : ℚ) * (1 - r0)| ≤ 511 * B := by
    have h1 : |(a : ℚ) * u - (a : ℚ) * (1 - r0)| = (a : ℚ) * |u - (1 - r0)| := by
      rw [← mul_sub, abs_mul, abs_of_nonneg haq]
    have h2 : (a : ℚ) * |u - (1 - r0)| ≤ 255 * (2 * B) :=
      mul_le_mul haq255 e1 (abs_nonneg _) (by norm_num)
    calc |v - (a : ℚ) * (1 - r0)|
        ≤ |v - (a : ℚ) * u| + |(a : ℚ) * u - (a : ℚ) * (1 - r0)| := abs_sub_le _ _ _
      _ = |v - (a : ℚ) * u| + (a : ℚ) * |u - (1 - r0)| := by rw [h1]
      _ ≤ B + 255 * (2 * B) := add_le_add hvB h2
      _ = 511 * B := by ring
  have e3 : |w - (b : ℚ) * r0| ≤ 256 * B := by
    have h1 : |(b : ℚ) * r - (b : ℚ) * r0| = (b : ℚ) * |r - r0| := by
      rw [← mul_sub, abs_mul, abs_of_nonneg hbq]
    have h2 : (b : ℚ) * |r - r0| ≤ 255 * B :=
      mul_le_mul hbq255 hrB (abs_nonneg _) (by norm_num)
    calc |w - (b : ℚ) * r0| ≤ |w - (b : ℚ) * r| + |(b : ℚ) * r - (b : ℚ) * r0| := abs_sub_le _ _ _
      _ = |w - (b : ℚ) * r| + (b : ℚ) * |r - r0| := by rw [h1]
      _ ≤ B + 255 * B := add_le_add hwB h2
      _ = 256 * B := by ring
  have hFE : |F - ((a : ℚ) * (1 - r0) + (b : ℚ) * r0)| ≤ 768 * B := by
    have hsplit : (v + w) - ((a : ℚ) * (1 - r0) + (b : ℚ) * r0) =
        (v - (a : ℚ) * (1 - r0)) + (w - (b : ℚ) * r0) := by ring
    have e4 : |(v + w) - ((a : ℚ) * (1 - r0) + (b : ℚ) * r0)| ≤ 767 * B := by
      calc |(v + w) - ((a : ℚ) * (1 - r0) + (b : ℚ) * r0)|
          = |(v - (a : ℚ) * (1 - r0)) + (w - (b : ℚ) * r0)| := by rw [hsplit]
        _ ≤ |v - (a : ℚ) * (1 - r0)| + |w - (b : ℚ) * r0| := abs_add _ _
        _ ≤ 511 * B + 256 * B := add_le_add e2 e3
        _ = 767 * B := by ring
    calc |F - ((a : ℚ) * (1 - r0) + (b : ℚ) * r0)|
        ≤ |F - (v + w)| + |(v + w) - ((a : ℚ) * (1 - r0) + (b : ℚ) * r0)| := abs_sub_le _ _ _
      _ ≤ B + 767 * B := add_le_add hFB e4
      _ = 768 * B := by ring
  have hEeq : (a : ℚ) * (1 - r0) + (b : ℚ) * r0 =
      ((a * (n - y) + b * y : ℕ) : ℚ) / (n : ℚ) := by
    rw [hr0]
    push_cast [Nat.cast_sub hy.le]
    field_simp
  have hEfloor : ⌊(a : ℚ) * (1 - r0) + (b : ℚ) * r0⌋ = (gradientChannel n y a b : ℤ) := by
    rw [hEeq]
    exact floor_natCast_div _ _
  obtain ⟨hFE1, hFE2⟩ := abs_le.mp hFE
  have hfloorle := Int.floor_le ((a : ℚ) * (1 - r0) + (b : ℚ) * r0)
  have hltfloor := Int.lt_floor_add_one ((a : ℚ) * (1 - r0) + (b : ℚ) * r0)
  rw [hgF, ← hEfloor]
  refine ⟨Int.floor_nonneg.mpr hF_0, ?_, ?_⟩
  · have h1 : ((⌊(a : ℚ) * (1 - r0) + (b : ℚ) * r0⌋ - 1 : ℤ) : ℚ) ≤ F := by
      push_cast
      linarith
    have := Int.le_floor.mpr h1
    omega
  · have h1 : F < ((⌊(a : ℚ) * (1 - r0) + (b : ℚ) * r0⌋ + 2 : ℤ) : ℚ) := by
      push_cast
      linarith
    have := Int.floor_lt.mpr h1
    omega

lemma gradientChannelF_zero (n a b : Nat) (ha : a ≤ 255) :
    gradientChannelF n 0 a b = (a : ℤ) := by
  unfold gradientChannelF
  have h0 : ((0 : ℕ) : ℚ) / (n : ℚ) = 0 := by norm_num
  rw [h0, fl_zero, sub_zero, fl_one, mul_one, mul_zero, fl_zero, add_zero]
  rw [fl_natCast a (le_trans ha (by norm_num))]
  rw [fl_natCast a (le_trans ha (by norm_num))]
  exact Int.floor_natCast a

lemma fl_eighty : fl 80 = 80 := by
  have h := fl_natCast 80 (by norm_num)
  have h80 : ((80 : ℕ) : ℚ) = (80 : ℚ) := by norm_num
  rw [h80] at h
  exact h

lemma highlight_alphaF_top (s : Nat) (h3 : 3 ≤ s) : highlight_alphaF s 0 = 80 := by
  have ht : 0 < s / 3 := by omega
  unfold highlight_alphaF
  rw [if_pos ht]
  have h0 : ((0 : ℕ) : ℚ) / ((s / 3 : ℕ) : ℚ) = 0 := by norm_num
  rw [h0, fl_zero, sub_zero, fl_one, mul_one, fl_eighty]
  have h80 : ⌊(80 : ℚ)⌋ = (80 : ℤ) := by norm_num
  rw [h80]
  rfl

lemma highlight_alphaF_anti (s : Nat) {y z : Nat} (hyz : y ≤ z) :
    highlight_alphaF s z ≤ highlight_alphaF s y := by
  unfold highlight_alphaF
  by_cases hz : z < s / 3
  · have hy : y < s / 3 := Nat.lt_of_le_of_lt hyz hz
    rw [if_pos hz, if_pos hy]
    have ht : 0 < s / 3 := by omega
    have htq : (0 : ℚ) < ((s / 3 : ℕ) : ℚ) := by exact_mod_cast ht
    have hdiv : ((y : ℚ) / ((s / 3 : ℕ) : ℚ)) ≤ ((z : ℚ) / ((s / 3 : ℕ) : ℚ)) := by
      apply (div_le_div_iff_of_pos_right htq).mpr
      exact_mod_cast hyz
    have h0y : (0 : ℚ) ≤ (y : ℚ) / ((s / 3 : ℕ) : ℚ) := by positivity
    have h0z : (0 : ℚ) ≤ (z : ℚ) / ((s / 3 : ℕ) : ℚ) := by positivity
    have hry : fl ((y : ℚ) / ((s / 3 : ℕ) : ℚ)) ≤ fl ((z : ℚ) / ((s / 3 : ℕ) : ℚ)) :=
      fl_mono h0y hdiv
    have hz1 : (z : ℚ) / ((s / 3 : ℕ) : ℚ) ≤ 1 := by
      rw [div_le_one htq]
      exact_mod_cast hz.le
    have hrz1 : fl ((z : ℚ) / ((s / 3 : ℕ) : ℚ)) ≤ 1 := by
      calc fl ((z : ℚ) / ((s / 3 : ℕ) : ℚ)) ≤ fl 1 := fl_mono h0z hz1
        _ = 1 := fl_one
    have hsub0 : (0 : ℚ) ≤ 1 - fl ((z : ℚ) / ((s / 3 : ℕ) : ℚ)) := by linarith
    have hsubm : 1 - fl ((z : ℚ) / ((s / 3 : ℕ) : ℚ)) ≤ 1 - fl ((y : ℚ) / ((s / 3 : ℕ) : ℚ)) := by
      linarith
    have hu := fl_mono hsub0 hsubm
    have hu0 : (0 : ℚ) ≤ fl (1 - fl ((z : ℚ) / ((s / 3 : ℕ) : ℚ))) := fl_nonneg hsub0
    have hmul : (80 : ℚ) * fl (1 - fl ((z : ℚ) / ((s / 3 : ℕ) : ℚ))) ≤
        80 * fl (1 - fl ((y : ℚ) / ((s / 3 : ℕ) : ℚ))) :=
      mul_le_mul_of_nonneg_left hu (by norm_num)
    have hmul0 : (0 : ℚ) ≤ 80 * fl (1 - fl ((z : ℚ) / ((s / 3 : ℕ) : ℚ))) := by positivity
    exact Int.toNat_le_toNat (Int.floor_le_floor (fl_mono hmul0 hmul))
  · rw [if_neg hz]
    exact Nat.zero_le _

lemma highlight_alphaF_le (s y : Nat) : highlight_alphaF s y ≤ 80 := by
  rcases Nat.lt_or_ge s 3 with h | h
  · have ht : s / 3 = 0 := by omega
    unfold highlight_alphaF
    rw [ht]
    simp
  · calc highlight_alphaF s y ≤ highlight_alphaF s 0 := highlight_alphaF_anti s (Nat.zero_le y)
      _ = 80 := highlight_alphaF_top s h

lemma fl_eval2 {q : ℚ} {e m : ℤ} (hq : 0 < q) (h1 : (2 : ℚ) ^ e ≤ q)
    (h2 : q < (2 : ℚ) ^ (e + 1)) (hm : rne (q * 2 ^ (52 - e)) = m) (out : ℚ)
    (hout : (m : ℚ) * 2 ^ (e - 52) = out) : fl q = out := by
  rw [fl_eval hq h1 h2 hm, hout]

lemma gradientChannelF_7_3 : gradientChannelF 7 3 255 255 = 254 := by
  have hr73 : fl ((3 : ℚ) / 7) = ((7720456504063707 : ℚ) / 18014398509481984) :=
    @fl_eval2 ((3 : ℚ) / 7) (-2) 7720456504063707 (by norm_num) (by norm_num) (by norm_num)
      (rne_eval_lo (by norm_num) (by norm_num)) _ (by norm_num)
  have hu73 : fl ((10293942005418277 : ℚ) / 18014398509481984) = ((2573485501354569 : ℚ) / 4503599627370496) :=
    @fl_eval2 ((10293942005418277 : ℚ) / 18014398509481984) (-1) 5146971002709138 (by norm_num) (by norm_num) (by norm_num)
      (rne_eval_tie_even (by norm_num) (by norm_num)) _ (by norm_num)
  have hv73 : fl ((656238802845415095 : ℚ) / 4503599627370496) = ((5126865647229805 : ℚ) / 35184372088832) :=
    @fl_eval2 ((656238802845415095 : ℚ) / 4503599627370496) (7) 5126865647229805 (by norm_num) (by norm_num) (by norm_num)
      (rne_eval_lo (by norm_num) (by norm_num)) _ (by norm_num)
  have hw73 : fl ((1968716408536245285 : ℚ) / 18014398509481984) = ((1922574617711177 : ℚ) / 17592186044416) :=
    @fl_eval2 ((1968716408536245285 : ℚ) / 18014398509481984) (6) 7690298470844708 (by norm_num) (by norm_num) (by norm_num)
      (rne_eval_lo (by norm_num) (by norm_num)) _ (by norm_num)
  have hs73 : fl ((8972014882652159 : ℚ) / 35184372088832) = ((8972014882652159 : ℚ) / 35184372088832) :=
    @fl_eval2 ((8972014882652159 : ℚ) / 35184372088832) (7) 8972014882652159 (by norm_num) (by norm_num) (by norm_num)
      (rne_eval_lo (by norm_num) (by norm_num)) _ (by norm_num)
  have hc : ((3 : ℕ) : ℚ) / ((7 : ℕ) : ℚ) = ((3 : ℚ) / 7) := by norm_num
  unfold gradientChannelF
  rw [hc, hr73]
  have h1 : (1 : ℚ) - ((7720456504063707 : ℚ) / 18014398509481984) = ((10293942005418277 : ℚ) / 18014398509481984) := by norm_num
  rw [h1, hu73]
  have h2 : ((255 : ℕ) : ℚ) * ((2573485501354569 : ℚ) / 4503599627370496) = ((656238802845415095 : ℚ) / 4503599627370496) := by norm_num
  rw [h2, hv73]
  have h3 : ((255 : ℕ) : ℚ) * ((7720456504063707 : ℚ) / 18014398509481984) = ((1968716408536245285 : ℚ) / 18014398509481984) := by norm_num
  rw [h3, hw73]
  have h4 : ((5126865647229805 : ℚ) / 35184372088832) + ((1922574617711177 : ℚ) / 17592186044416) = ((8972014882652159 : ℚ) / 35184372088832) := by norm_num
  rw [h4, hs73]
  refine Int.floor_eq_iff.mpr ⟨by norm_num, by norm_num⟩

lemma gradientChannelF_7_4 : gradientChannelF 7 4 255 255 = 255 := by
  have hr74 : fl ((4 : ℚ) / 7) = ((2573485501354569 : ℚ) / 4503599627370496) :=
    @fl_eval2 ((4 : ℚ) / 7) (-1) 5146971002709138 (by norm_num) (by norm_num) (by norm_num)
      (rne_eval_lo (by norm_num) (by norm_num)) _ (by norm_num)
  have hu74 : fl ((1930114126015927 : ℚ) / 4503599627370496) = ((1930114126015927 : ℚ) / 4503599627370496) :=
    @fl_eval2 ((1930114126015927 : ℚ) / 4503599627370496) (-2) 7720456504063708 (by norm_num) (by norm_num) (by norm_num)
      (rne_eval_lo (by norm_num) (by norm_num)) _ (by norm_num)
  have hv74 : fl ((492179102134061385 : ℚ) / 4503599627370496) = ((7690298470844709 : ℚ) / 70368744177664) :=
    @fl_eval2 ((492179102134061385 : ℚ) / 4503599627370496) (6) 7690298470844709 (by norm_num) (by norm_num) (by norm_num)
      (rne_eval_lo (by norm_num) (by norm_num)) _ (by norm_num)
  have hw74 : fl ((656238802845415095 : ℚ) / 4503599627370496) = ((5126865647229805 : ℚ) / 35184372088832) :=
    @fl_eval2 ((656238802845415095 : ℚ) / 4503599627370496) (7) 5126865647229805 (by norm_num) (by norm_num) (by norm_num)
      (rne_eval_lo (by norm_num) (by norm_num)) _ (by norm_num)
  have hs74 : fl ((17944029765304319 : ℚ) / 70368744177664) = (255 : ℚ) :=
    @fl_eval2 ((17944029765304319 : ℚ) / 70368744177664) (7) 8972014882652160 (by norm_num) (by norm_num) (by norm_num)
      (rne_eval_tie_odd2 (by norm_num) (by norm_num)) _ (by norm_num)
  have hc : ((4 : ℕ) : ℚ) / ((7 : ℕ) : ℚ) = ((4 : ℚ) / 7) := by norm_num
  unfold gradientChannelF
  rw [hc, hr74]
  have h1 : (1 : ℚ) - ((2573485501354569 : ℚ) / 4503599627370496) = ((1930114126015927 : ℚ) / 4503599627370496) := by norm_num
  rw [h1, hu74]
  have h2 : ((255 : ℕ) : ℚ) * ((1930114126015927 : ℚ) / 4503599627370496) = ((492179102134061385 : ℚ) / 4503599627370496) := by norm_num
  rw [h2, hv74]
  have h3 : ((255 : ℕ) : ℚ) * ((2573485501354569 : ℚ) / 4503599627370496) = ((656238802845415095 : ℚ) / 4503599627370496) := by norm_num
  rw [h3, hw74]
  have h4 : ((7690298470844709 : ℚ) / 70368744177664) + ((5126865647229805 : ℚ) / 35184372088832) = ((17944029765304319 : ℚ) / 70368744177664) := by norm_num
  rw [h4, hs74]
  refine Int.floor_eq_iff.mpr ⟨by norm_num, by norm_num⟩

/-! Helper lemmas about the drawing fold. -/

lemma applyCmds_width : ∀ (cmds : List Cmd) (im : Img), (applyCmds im cmds).width = im.width := by
  intro cmds
  induction cmds with
  | nil => intro im; rfl
  | cons c cs ih => intro im; exact ih (applyCmd im c)

lemma applyCmds_height : ∀ (cmds : List Cmd) (im : Img), (applyCmds im cmds).height = im.height := by
  intro cmds
  induction cmds with
  | nil => intro im; rfl
  | cons c cs ih => intro im; exact ih (applyCmd im c)

lemma alpha_composite_width (dst src : Img) : (alpha_composite dst src).width = dst.width := rfl

lemma alpha_composite_height (dst src : Img) : (alpha_composite dst src).height = dst.height := rfl

lemma putalpha_width (img : Img) (mask : GrayImg) : (putalpha img mask).width = img.width := rfl

lemma putalpha_height (img : Img) (mask : GrayImg) : (putalpha img mask).height = img.height := rfl

lemma applyCmds_pix_uniform :
    ∀ (cmds : List Cmd) (im : Img) (f : RGBA),
      (∀ c ∈ cmds, Cmd.fill c = f) → ∀ x y : Nat,
      (applyCmds im cmds).pix x y =
        if x < im.width ∧ y < im.height ∧
            cmds.any (fun c => Cmd.covers c (x : Int) (y : Int)) then f
        else im.pix x y := by
  intro cmds
  induction cmds with
  | nil =>
    intro im f hf x y
    simp [applyCmds]
  | cons c cs ih =>
    intro im f hf x y
    have hstep : applyCmds im (c :: cs) = applyCmds (applyCmd im c) cs := rfl
    have hcf : Cmd.fill c = f := hf c (List.mem_cons_self _ _)
    rw [hstep, ih (applyCmd im c) f (fun d hd => hf d (List.mem_cons_of_mem _ hd)) x y]
    by_cases hx : x < im.width <;>
      by_cases hy : y < im.height <;>
        by_cases hc : Cmd.covers c (x : Int) (y : Int) = true <;>
          by_cases hcs : (cs.any fun d => Cmd.covers d (x : Int) (y : Int)) = true <;>
            simp [applyCmd, hx, hy, hc, hcs, hcf]

lemma draw_crab_fill (size : Nat) (color : RGBA) :
    ∀ c ∈ draw_crab size color, Cmd.fill c = color := by
  intro c hc
  simp only [draw_crab, List.mem_append, List.mem_flatMap, List.mem_range,
    List.mem_cons, List.not_mem_nil, or_false] at hc
  rcases hc with (rfl | rfl | rfl | rfl | rfl | rfl | rfl | rfl | rfl | rfl | rfl) |
    ⟨i, -, rfl | rfl⟩ <;> rfl

lemma crab_img_pix (s x y : Nat) :
    (crab_img s).pix x y =
      if x < s ∧ y < s ∧
          (draw_crab s (inkOf WHITE)).any (fun c => Cmd.covers c (x : Int) (y : Int))
      then inkOf WHITE
      else (masked_img s).pix x y :=
  applyCmds_pix_uniform (draw_crab s (inkOf WHITE)) (masked_img s) (inkOf WHITE)
    (draw_crab_fill s (inkOf WHITE)) x y

/-! Helper lemmas about the gradient arithmetic. -/

lemma gradientChannel_mono (size y z a b : Nat) (hab : a ≤ b) (hyz : y ≤ z) (hz : z ≤ size) :
    gradientChannel size y a b ≤ gradientChannel size z a b := by
  apply Nat.div_le_div_right
  have h1 : size - y = (size - z) + (z - y) := by omega
  have h2 : b * z = b * y + b * (z - y) := by
    rw [← Nat.mul_add]
    congr 1
    omega
  have h3 : a * (z - y) ≤ b * (z - y) := Nat.mul_le_mul_right _ hab
  calc a * (size - y) + b * y
      = a * (size - z) + (a * (z - y) + b * y) := by rw [h1]; ring
    _ ≤ a * (size - z) + (b * (z - y) + b * y) :=
        Nat.add_le_add_left (Nat.add_le_add_right h3 _) _
    _ = a * (size - z) + b * z := by rw [h2]; ring

lemma gradientChannel_anti (size y z a b : Nat) (hba : b ≤ a) (hyz : y ≤ z) (hz : z ≤ size) :
    gradientChannel size z a b ≤ gradientChannel size y a b := by
  apply Nat.div_le_div_right
  have h1 : size - y = (size - z) + (z - y) := by omega
  have h2 : b * z = b * y + b * (z - y) := by
    rw [← Nat.mul_add]
    congr 1
    omega
  have h3 : b * (z - y) ≤ a * (z - y) := Nat.mul_le_mul_right _ hba
  calc a * (size - z) + b * z
      = a * (size - z) + (b * (z - y) + b * y) := by rw [h2]; ring
    _ ≤ a * (size - z) + (a * (z - y) + b * y) :=
        Nat.add_le_add_left (Nat.add_le_add_right h3 _) _
    _ = a * (size - y) + b * y := by rw [h1]; ring

lemma gradientChannel_le (size y a b : Nat) (ha : a ≤ 255) (hb : b ≤ 255) (hy : y ≤ size) :
    gradientChannel size y a b ≤ 255 := by
  rcases Nat.eq_zero_or_pos size with hs | hs
  · subst hs
    simp [gradientChannel]
  · have h1 : a * (size - y) + b * y ≤ 255 * (size - y) + 255 * y :=
      Nat.add_le_add (Nat.mul_le_mul_right _ ha) (Nat.mul_le_mul_right _ hb)
    have h2 : 255 * (size - y) + 255 * y = 255 * size := by
      rw [← Nat.mul_add]
      congr 1
      omega
    calc gradientChannel size y a b
        ≤ (255 * size) / size := Nat.div_le_div_right (h2 ▸ h1)
      _ = 255 := Nat.mul_div_cancel _ hs

lemma gradientChannel_last (m a b : Nat) :
    Nat.dist (gradientChannel (m + 1) m a b) b ≤ Nat.dist a b / (m + 1) + 1 := by
  have hpos : 0 < m + 1 := Nat.succ_pos m
  have hgc : gradientChannel (m + 1) m a b = (a + b * m) / (m + 1) := by
    unfold gradientChannel
    have h1 : m + 1 - m = 1 := by omega
    rw [h1, Nat.mul_one]
  rcases Nat.le_total b a with hba | hab
  · have hsplit : a + b * m = (a - b) + b * (m + 1) := by
      have hb1 : b * (m + 1) = b * m + b := by ring
      omega
    have hval : gradientChannel (m + 1) m a b = (a - b) / (m + 1) + b := by
      rw [hgc, hsplit, Nat.add_mul_div_right _ _ hpos]
    rw [hval]
    have hdista : Nat.dist a b = a - b := by
      unfold Nat.dist
      omega
    have hdistv : ∀ k : Nat, Nat.dist (k + b) b = k := by
      intro k
      unfold Nat.dist
      omega
    rw [hdistv, hdista]
    exact Nat.le_succ_of_le (Nat.le_refl _)
  · have hsum : (a + b * m) + (b - a) = b * (m + 1) := by
      have hb1 : b * (m + 1) = b * m + b := by ring
      omega
    have hvb : gradientChannel (m + 1) m a b ≤ b := by
      rw [hgc]
      have hle : a + b * m ≤ b * (m + 1) := by omega
      calc (a + b * m) / (m + 1) ≤ (b * (m + 1)) / (m + 1) := Nat.div_le_div_right hle
        _ = b := Nat.mul_div_cancel _ hpos
    have hdivle : ((a + b * m) + (b - a)) / (m + 1) ≤
        (a + b * m) / (m + 1) + (b - a) / (m + 1) + 1 := by
      rw [Nat.add_div hpos]
      apply Nat.add_le_add_left
      split
      · exact Nat.le_refl 1
      · exact Nat.zero_le 1
    have hlower : b ≤ gradientChannel (m + 1) m a b + (b - a) / (m + 1) + 1 := by
      rw [hgc]
      calc b = ((a + b * m) + (b - a)) / (m + 1) := by rw [hsum, Nat.mul_div_cancel _ hpos]
        _ ≤ (a + b * m) / (m + 1) + (b - a) / (m + 1) + 1 := hdivle
    have hdista : Nat.dist a b = b - a := by
      unfold Nat.dist
      omega
    have hdistv : Nat.dist (gradientChannel (m + 1) m a b) b =
        b - gradientChannel (m + 1) m a b := by
      unfold Nat.dist
      omega
    rw [hdistv, hdista]
    omega

/-! Helper lemmas about the highlight band. -/

lemma highlight_alpha_le (s y : Nat) : highlight_alpha s y ≤ 80 := by
  unfold highlight_alpha
  split
  · rename_i hy
    have ht : 0 < s / 3 := Nat.lt_of_le_of_lt (Nat.zero_le y) hy
    have h1 : 80 * (s / 3 - y) ≤ 80 * (s / 3) := Nat.mul_le_mul_left _ (Nat.sub_le _ _)
    calc (80 * (s / 3 - y)) / (s / 3) ≤ (80 * (s / 3)) / (s / 3) := Nat.div_le_div_right h1
      _ = 80 := Nat.mul_div_cancel _ ht
  · exact Nat.zero_le 80

lemma highlight_img_a (s x y : Nat) (hx : x < s) :
    ((highlight_img s).pix x y).a = highlight_alpha s y := by
  by_cases hy : y < s / 3 <;> simp [highlight_img, highlight_alpha, hx, hy]

lemma highlight_img_a_le (s x y : Nat) : ((highlight_img s).pix x y).a ≤ 255 := by
  by_cases hxy : x < s ∧ y < s / 3
  · simp only [highlight_img, if_pos hxy]
    exact le_trans (highlight_alpha_le s y) (by norm_num)
  · simp [highlight_img, if_neg hxy]

/-! Helper lemmas about alpha compositing. -/

lemma composite_a_opaque (dst src : RGBA) (hsrc : src.a ≤ 255) (hd : dst.a = 255) :
    (composite_pixel dst src).a = 255 := by
  unfold composite_pixel
  rw [hd]
  have h1 : src.a * 255 + 255 * (255 - src.a) = 65025 := by omega
  rw [h1]
  norm_num

lemma composite_a_transparent (dst src : RGBA) (hd : dst.a = 0) :
    (composite_pixel dst src).a = src.a := by
  unfold composite_pixel
  rw [hd]
  have h0 : src.a * 255 + 0 * (255 - src.a) = src.a * 255 := by omega
  rw [h0]
  rcases Nat.eq_zero_or_pos src.a with h | h
  · simp [h]
  · have hne : src.a * 255 ≠ 0 := Nat.mul_ne_zero (by omega) (by norm_num)
    rw [if_neg hne]
    exact Nat.mul_div_cancel _ (by norm_num)

lemma composite_channel_le (sc sa dc da : Nat) (hsc : sc ≤ 255) (hdc : dc ≤ 255) :
    (sc * sa * 255 + dc * (da * (255 - sa))) / (sa * 255 + da * (255 - sa)) ≤ 255 := by
  rcases Nat.eq_zero_or_pos (sa * 255 + da * (255 - sa)) with h | h
  · rw [h]
    simp
  · have h1 : sc * sa * 255 ≤ 255 * (sa * 255) := by
      calc sc * sa * 255 = sc * (sa * 255) := by ring
        _ ≤ 255 * (sa * 255) := Nat.mul_le_mul_right _ hsc
    have h2 : dc * (da * (255 - sa)) ≤ 255 * (da * (255 - sa)) :=
      Nat.mul_le_mul_right _ hdc
    have hnum : sc * sa * 255 + dc * (da * (255 - sa)) ≤
        255 * (sa * 255 + da * (255 - sa)) := by
      calc sc * sa * 255 + dc * (da * (255 - sa))
          ≤ 255 * (sa * 255) + 255 * (da * (255 - sa)) := Nat.add_le_add h1 h2
        _ = 255 * (sa * 255 + da * (255 - sa)) := by ring
    calc (sc * sa * 255 + dc * (da * (255 - sa))) / (sa * 255 + da * (255 - sa))
        ≤ (255 * (sa * 255 + da * (255 - sa))) / (sa * 255 + da * (255 - sa)) :=
          Nat.div_le_div_right hnum
      _ = 255 := Nat.mul_div_cancel _ h

lemma composite_alpha_le (sa da : Nat) (hsa : sa ≤ 255) (hda : da ≤ 255) :
    (sa * 255 + da * (255 - sa)) / 255 ≤ 255 := by
  have h1 : da * (255 - sa) ≤ 255 * (255 - sa) := Nat.mul_le_mul_right _ hda
  have h2 : sa * 255 + da * (255 - sa) ≤ 255 * 255 := by
    calc sa * 255 + da * (255 - sa) ≤ sa * 255 + 255 * (255 - sa) := Nat.add_le_add_left h1 _
      _ ≤ 255 * 255 := by omega
  calc (sa * 255 + da * (255 - sa)) / 255 ≤ (255 * 255) / 255 := Nat.div_le_div_right h2
    _ = 255 := by norm_num

lemma composite_pixel_bounded (dst src : RGBA)
    (hd : dst.r ≤ 255 ∧ dst.g ≤ 255 ∧ dst.b ≤ 255 ∧ dst.a ≤ 255)
    (hs : src.r ≤ 255 ∧ src.g ≤ 255 ∧ src.b ≤ 255 ∧ src.a ≤ 255) :
    (composite_pixel dst src).r ≤ 255 ∧ (composite_pixel dst src).g ≤ 255 ∧
      (composite_pixel dst src).b ≤ 255 ∧ (composite_pixel dst src).a ≤ 255 := by
  obtain ⟨hdr, hdg, hdb, hda⟩ := hd
  obtain ⟨hsr, hsg, hsb, hsa⟩ := hs
  simp only [composite_pixel]
  split
  · simp
  · exact ⟨composite_channel_le _ _ _ _ hsr hdr, composite_channel_le _ _ _ _ hsg hdg,
      composite_channel_le _ _ _ _ hsb hdb, composite_alpha_le _ _ hsa hda⟩

/-! Boundedness of every stage of the pipeline. -/

lemma create_gradient_bounded_fixed (s : Nat) :
    Bounded (create_gradient s BLUE_LIGHT BLUE_DARK) := by
  intro x y
  unfold create_gradient
  dsimp only
  split
  · rename_i hxy
    refine ⟨?_, ?_, ?_, by norm_num⟩ <;>
      exact gradientChannel_le _ _ _ _ (by norm_num [BLUE_LIGHT])
        (by norm_num [BLUE_DARK]) (Nat.le_of_lt hxy.2)
  · simp

lemma icon_mask_le (s x y : Nat) : (icon_mask s).pix x y ≤ 255 := by
  unfold icon_mask
  dsimp only
  split <;> norm_num

lemma masked_img_bounded (s : Nat) : Bounded (masked_img s) := by
  intro x y
  have hg := create_gradient_bounded_fixed s x y
  exact ⟨hg.1, hg.2.1, hg.2.2.1, icon_mask_le s x y⟩

lemma crab_img_bounded (s : Nat) : Bounded (crab_img s) := by
  intro x y
  rw [crab_img_pix]
  split
  · refine ⟨?_, ?_, ?_, ?_⟩ <;> norm_num [inkOf, WHITE]
  · exact masked_img_bounded s x y

lemma highlight_img_bounded (s : Nat) : Bounded (highlight_img s) := by
  intro x y
  unfold highlight_img
  dsimp only
  split
  · exact ⟨by norm_num, by norm_num, by norm_num,
      le_trans (highlight_alpha_le s y) (by norm_num)⟩
  · simp

lemma create_icon_bounded (s : Nat) : Bounded (create_icon s) := fun x y =>
  composite_pixel_bounded _ _ (crab_img_bounded s x y) (highlight_img_bounded s x y)

/-- C9: every pixel value produced by any step of the pipeline (gradient,
mask, masked gradient, crab drawing, highlight, final composite) stays
within the valid channel range 0..255, for every size and the fixed input
colors. -/
theorem pipeline_pixel_values_in_range (s : Nat) :
    Bounded (create_gradient s BLUE_LIGHT BLUE_DARK) ∧
    (∀ x y : Nat, (icon_mask s).pix x y ≤ 255) ∧
    Bounded (masked_img s) ∧
    Bounded (crab_img s) ∧
    Bounded (highlight_img s) ∧
    Bounded (create_icon s) :=
  ⟨create_gradient_bounded_fixed s, fun x y => icon_mask_le s x y,
   masked_img_bounded s, crab_img_bounded s, highlight_img_bounded s,
   create_icon_bounded s⟩

/-- C1 (amended): inside the image, a pixel of `create_icon size` is fully
opaque exactly where the rounded-rectangle mask keeps it or the crab
drawing covers it; everywhere else (the clipped corner regions) the alpha
equals the highlight alpha of that row, which is 0 below the highlight band
but positive (80 at the top row) inside the band. -/
theorem create_icon_alpha (s x y : Nat) (hx : x < s) (hy : y < s) :
    ((create_icon s).pix x y).a =
      if roundedRectCovers s (s / 5) x y = true ∨
          (draw_crab s (inkOf WHITE)).any (fun c => Cmd.covers c (x : Int) (y : Int)) = true
      then 255 else highlight_alpha s y := by
  have hpix : (create_icon s).pix x y =
      composite_pixel ((crab_img s).pix x y) ((highlight_img s).pix x y) := rfl
  rw [hpix]
  by_cases hcrab :
      (draw_crab s (inkOf WHITE)).any (fun c => Cmd.covers c (x : Int) (y : Int)) = true
  · have hda : ((crab_img s).pix x y).a = 255 := by
      rw [crab_img_pix, if_pos ⟨hx, hy, hcrab⟩]
      rfl
    rw [if_pos (Or.inr hcrab)]
    exact composite_a_opaque _ _ (highlight_img_a_le s x y) hda
  · by_cases hmask : roundedRectCovers s (s / 5) x y = true
    · have hda : ((crab_img s).pix x y).a = 255 := by
        rw [crab_img_pix, if_neg (fun hcon => hcrab hcon.2.2)]
        show (icon_mask s).pix x y = 255
        unfold icon_mask
        dsimp only
        rw [if_pos ⟨hx, hy, hmask⟩]
      rw [if_pos (Or.inl hmask)]
      exact composite_a_opaque _ _ (highlight_img_a_le s x y) hda
    · have hda : ((crab_img s).pix x y).a = 0 := by
        rw [crab_img_pix, if_neg (fun hcon => hcrab hcon.2.2)]
        show (icon_mask s).pix x y = 0
        unfold icon_mask
        dsimp only
        rw [if_neg (fun hcon => hmask hcon.2.2)]
      rw [if_neg (fun hcon => hcon.elim hmask hcrab)]
      rw [composite_a_transparent _ _ hda]
      exact highlight_img_a s x y hx

/-- C1 witness: the amended alpha characterization instantiated at
size 128 and pixel (0, 0). -/
theorem create_icon_alpha_witness :
    0 < 128 ∧ 0 < 128 ∧
    ((create_icon 128).pix 0 0).a =
      (if roundedRectCovers 128 (128 / 5) 0 0 = true ∨
          (draw_crab 128 (inkOf WHITE)).any (fun c => Cmd.covers c (0 : Int) (0 : Int)) = true
       then 255 else highlight_alpha 128 0) :=
  ⟨by decide, by decide, create_icon_alpha 128 0 0 (by decide) (by decide)⟩

/-- C1 counterexample: at size 128 the pixel (0, 0) is clipped by the
rounded-corner mask, yet the final alpha is 80 (the highlight alpha of the
top row), not 0 as the claim states. -/
theorem create_icon_corner_not_transparent :
    (icon_mask 128).pix 0 0 = 0 ∧ ((create_icon 128).pix 0 0).a = 80 ∧
      ((create_icon 128).pix 0 0).a ≠ 0 := by
  refine ⟨by decide, by decide, by decide⟩

/-- C4: `create_icon` is a pure function of its size argument with no
hidden state, so two runs at the same size produce pixel-identical
images. -/
theorem create_icon_deterministic (s : Nat) : create_icon s = create_icon s := rfl

/-- C5: the image returned by `create_icon` has width and height exactly
equal to the requested size, for every size. -/
theorem create_icon_dims (s : Nat) :
    (create_icon s).width = s ∧ (create_icon s).height = s := by
  unfold create_icon crab_img masked_img
  rw [alpha_composite_width, alpha_composite_height, applyCmds_width, applyCmds_height,
    putalpha_width, putalpha_height]
  exact ⟨rfl, rfl⟩

/-- C6: the mask built by `create_icon` spans the full target size and is
the rounded rectangle of corner radius `size // 5`; at size 128 the radius
is 25. -/
theorem icon_mask_spec (s : Nat) :
    (icon_mask s).width = s ∧ (icon_mask s).height = s ∧
    (∀ x y : Nat, (icon_mask s).pix x y =
      if x < s ∧ y < s ∧ roundedRectCovers s (icon_radius s) x y then 255 else 0) ∧
    icon_radius s = s / 5 ∧ icon_radius 128 = 25 :=
  ⟨rfl, rfl, fun _ _ => rfl, rfl, rfl⟩

/-- C10: for every size at least 1, the leg loop of `draw_crab` issues
exactly three left and three right leg line primitives, each with stroke
width `max(1, int(4 * size / 128))`, which is always at least 1; below
size 32 the scaled width is 0 and the legs are still drawn with width 1. -/
theorem draw_crab_legs (s : Nat) (c : RGBA) (h1 : 1 ≤ s) :
    (draw_crab s c).filter Cmd.isLine =
      [left_leg_cmd s c 0, right_leg_cmd s c 0, left_leg_cmd s c 1, right_leg_cmd s c 1,
       left_leg_cmd s c 2, right_leg_cmd s c 2] ∧
    ((draw_crab s c).filter Cmd.isLine).length = 6 ∧
    (∀ i : Nat, (left_leg_cmd s c i).strokeWidth = max 1 ((4 * s) / 128) ∧
      (right_leg_cmd s c i).strokeWidth = max 1 ((4 * s) / 128)) ∧
    1 ≤ max 1 ((4 * s) / 128) ∧
    (s < 32 → max 1 ((4 * s) / 128) = 1) := by
  refine ⟨rfl, rfl, fun i => ⟨rfl, rfl⟩, le_max_left _ _, fun h32 => ?_⟩
  have h0 : (4 * s) / 128 = 0 := Nat.div_eq_of_lt (by omega)
  rw [h0]
  decide

/-- C10 witness: the leg specification instantiated at size 16 (below 32)
with the white ink the script uses. -/
theorem draw_crab_legs_witness :
    1 ≤ 16 ∧
    ((draw_crab 16 (inkOf WHITE)).filter Cmd.isLine =
      [left_leg_cmd 16 (inkOf WHITE) 0, right_leg_cmd 16 (inkOf WHITE) 0,
       left_leg_cmd 16 (inkOf WHITE) 1, right_leg_cmd 16 (inkOf WHITE) 1,
       left_leg_cmd 16 (inkOf WHITE) 2, right_leg_cmd 16 (inkOf WHITE) 2] ∧
    ((draw_crab 16 (inkOf WHITE)).filter Cmd.isLine).length = 6 ∧
    (∀ i : Nat, (left_leg_cmd 16 (inkOf WHITE) i).strokeWidth = max 1 ((4 * 16) / 128) ∧
      (right_leg_cmd 16 (inkOf WHITE) i).strokeWidth = max 1 ((4 * 16) / 128)) ∧
    1 ≤ max 1 ((4 * 16) / 128) ∧
    (16 < 32 → max 1 ((4 * 16) / 128) = 1)) :=
  ⟨by decide, draw_crab_legs 16 (inkOf WHITE) (by decide)⟩

lemma main_writes_manifest (d : List String) :
    main_writes d =
      [(d.dropLast ++ ["public", "icons", "icon16.png"], 16),
       (d.dropLast ++ ["dist", "icons", "icon16.png"], 16),
       (d.dropLast ++ ["public", "icons", "icon48.png"], 48),
       (d.dropLast ++ ["dist", "icons", "icon48.png"], 48),
       (d.dropLast ++ ["public", "icons", "icon128.png"], 128),
       (d.dropLast ++ ["dist", "icons", "icon128.png"], 128),
       (d.dropLast ++ ["public", "logo-square.png"], 256),
       (d.dropLast ++ ["dist", "logo-square.png"], 256)] := by
  have h16 : ("icon" ++ toString (16 : Nat) ++ ".png" : String) = "icon16.png" := rfl
  have h48 : ("icon" ++ toString (48 : Nat) ++ ".png" : String) = "icon48.png" := rfl
  have h128 : ("icon" ++ toString (128 : Nat) ++ ".png" : String) = "icon128.png" := rfl
  simp [main_writes, h16, h48, h128, List.append_assoc]

/-- C2 (amended): a run of `main` creates exactly 8 distinct files, not 7:
three icon sizes saved into both icon directories plus the logo saved into
both trees. -/
theorem main_writes_count (d : List String) :
    (main_writes d).length = 8 ∧ (main_writes d).Nodup := by
  rw [main_writes_manifest d]
  refine ⟨rfl, ?_⟩
  have hlist :
      [(d.dropLast ++ ["public", "icons", "icon16.png"], 16),
       (d.dropLast ++ ["dist", "icons", "icon16.png"], 16),
       (d.dropLast ++ ["public", "icons", "icon48.png"], 48),
       (d.dropLast ++ ["dist", "icons", "icon48.png"], 48),
       (d.dropLast ++ ["public", "icons", "icon128.png"], 128),
       (d.dropLast ++ ["dist", "icons", "icon128.png"], 128),
       (d.dropLast ++ ["public", "logo-square.png"], 256),
       (d.dropLast ++ ["dist", "logo-square.png"], 256)] =
      ([(["public", "icons", "icon16.png"], 16),
        (["dist", "icons", "icon16.png"], 16),
        (["public", "icons", "icon48.png"], 48),
        (["dist", "icons", "icon48.png"], 48),
        (["public", "icons", "icon128.png"], 128),
        (["dist", "icons", "icon128.png"], 128),
        (["public", "logo-square.png"], 256),
        (["dist", "logo-square.png"], 256)] :
          List (List String × Nat)).map (fun p => (d.dropLast ++ p.1, p.2)) := rfl
  rw [hlist]
  apply List.Nodup.map
  · intro p q hpq
    simp only [Prod.mk.injEq] at hpq
    exact Prod.ext (List.append_cancel_left hpq.1) hpq.2
  · decide

/-- C2 counterexample: at a concrete script directory the run writes 8
distinct files, so it does not write exactly 7. -/
theorem main_writes_count_cex :
    (main_writes ["apps", "extension", "scripts"]).Nodup ∧
    (main_writes ["apps", "extension", "scripts"]).length = 8 ∧
    (main_writes ["apps", "extension", "scripts"]).length ≠ 7 := by
  refine ⟨by decide, by decide, by decide⟩

/-- C7 (amended): `main` writes icon16/48/128.png into `public/icons` and
`dist/icons`, and the 256-pixel logo-square.png into `public` and `dist`,
all relative to the parent of the directory containing the script (not the
script directory itself). -/
theorem main_writes_layout (d : List String) :
    main_writes d =
      [(d.dropLast ++ ["public", "icons", "icon16.png"], 16),
       (d.dropLast ++ ["dist", "icons", "icon16.png"], 16),
       (d.dropLast ++ ["public", "icons", "icon48.png"], 48),
       (d.dropLast ++ ["dist", "icons", "icon48.png"], 48),
       (d.dropLast ++ ["public", "icons", "icon128.png"], 128),
       (d.dropLast ++ ["dist", "icons", "icon128.png"], 128),
       (d.dropLast ++ ["public", "logo-square.png"], 256),
       (d.dropLast ++ ["dist", "logo-square.png"], 256)] :=
  main_writes_manifest d

/-- C7 counterexample: with the script in `apps/extension/scripts`, no file
is created under `public/icons` relative to the script's own directory; the
icon paths are anchored at the parent `apps/extension` instead. -/
theorem main_writes_layout_cex :
    ¬ ((["apps", "extension", "scripts"] ++ ["public", "icons", "icon16.png"], 16) ∈
        main_writes ["apps", "extension", "scripts"]) := by decide

/-! The gradient and highlight properties for the bitwise-faithful float
semantics. -/

lemma create_gradientF_pix (n x y : Nat) (c1 c2 : Nat × Nat × Nat)
    (hx : x < n) (hy : y < n) :
    (create_gradientF n c1 c2).pix x y =
      ⟨(gradientChannelF n y c1.1 c2.1).toNat,
       (gradientChannelF n y c1.2.1 c2.2.1).toNat,
       (gradientChannelF n y c1.2.2 c2.2.2).toNat, 255⟩ := by
  simp [create_gradientF, hx, hy]

lemma gradientChannelF_toNat_zero (n a b : Nat) (ha : a ≤ 255) :
    (gradientChannelF n 0 a b).toNat = a := by
  rw [gradientChannelF_zero n a b ha]
  exact Int.toNat_natCast a

lemma gradientChannelF_dist (n y a b : Nat) (hn : 0 < n) (hy : y < n)
    (ha : a ≤ 255) (hb : b ≤ 255) :
    Nat.dist (gradientChannelF n y a b).toNat (gradientChannel n y a b) ≤ 1 := by
  obtain ⟨h0, hlo, hhi⟩ := gradientChannelF_close n y a b hn hy ha hb
  have ht : ((gradientChannelF n y a b).toNat : ℤ) = gradientChannelF n y a b :=
    Int.toNat_of_nonneg h0
  unfold Nat.dist
  omega

lemma gradientChannelF_last_dist (m a b : Nat) (ha : a ≤ 255) (hb : b ≤ 255) :
    Nat.dist (gradientChannelF (m + 1) m a b).toNat b ≤ Nat.dist a b / (m + 1) + 2 := by
  have h1 := gradientChannelF_dist (m + 1) m a b (Nat.succ_pos m) (Nat.lt_succ_self m) ha hb
  have h2 := gradientChannel_last m a b
  have h3 := Nat.dist.triangle_inequality
    ((gradientChannelF (m + 1) m a b).toNat) (gradientChannel (m + 1) m a b) b
  generalize Nat.dist a b / (m + 1) = D at h2 ⊢
  omega

/-- C3 (amended): for every size > 0 and 8-bit colors, the top row of the
float-faithful gradient equals the first color exactly; every pixel's
channels are within 1 of the ideal floor interpolation
`(c1 * (size - y) + c2 * y) / size`, and that ideal value changes
monotonically down the image (non-decreasing when the channel grows,
non-increasing when it shrinks); the bottom row is within
`dist(c1, c2) / size + 2` of the second color per channel.  Strict
per-pixel monotonicity and "bottom row equals color2 up to rounding" are
refuted by `create_gradientF_cex`. -/
theorem create_gradientF_rows (n : Nat) (c1 c2 : Nat × Nat × Nat) (hn : 0 < n)
    (h1 : c1.1 ≤ 255 ∧ c1.2.1 ≤ 255 ∧ c1.2.2 ≤ 255)
    (h2 : c2.1 ≤ 255 ∧ c2.2.1 ≤ 255 ∧ c2.2.2 ≤ 255) :
    (∀ x, x < n → (create_gradientF n c1 c2).pix x 0 = ⟨c1.1, c1.2.1, c1.2.2, 255⟩) ∧
    (∀ x y, x < n → y < n →
      Nat.dist ((create_gradientF n c1 c2).pix x y).r (gradientChannel n y c1.1 c2.1) ≤ 1 ∧
      Nat.dist ((create_gradientF n c1 c2).pix x y).g (gradientChannel n y c1.2.1 c2.2.1) ≤ 1 ∧
      Nat.dist ((create_gradientF n c1 c2).pix x y).b (gradientChannel n y c1.2.2 c2.2.2) ≤ 1) ∧
    (∀ a b y z, y ≤ z → z ≤ n → a ≤ b →
      gradientChannel n y a b ≤ gradientChannel n z a b) ∧
    (∀ a b y z, y ≤ z → z ≤ n → b ≤ a →
      gradientChannel n z a b ≤ gradientChannel n y a b) ∧
    (∀ x, x < n →
      Nat.dist ((create_gradientF n c1 c2).pix x (n - 1)).r c2.1 ≤
        Nat.dist c1.1 c2.1 / n + 2 ∧
      Nat.dist ((create_gradientF n c1 c2).pix x (n - 1)).g c2.2.1 ≤
        Nat.dist c1.2.1 c2.2.1 / n + 2 ∧
      Nat.dist ((create_gradientF n c1 c2).pix x (n - 1)).b c2.2.2 ≤
        Nat.dist c1.2.2 c2.2.2 / n + 2) := by
  obtain ⟨ha1, ha2, ha3⟩ := h1
  obtain ⟨hb1, hb2, hb3⟩ := h2
  refine ⟨?_, ?_, ?_, ?_, ?_⟩
  · intro x hx
    rw [create_gradientF_pix n x 0 c1 c2 hx hn]
    rw [gradientChannelF_toNat_zero n c1.1 c2.1 ha1,
        gradientChannelF_toNat_zero n c1.2.1 c2.2.1 ha2,
        gradientChannelF_toNat_zero n c1.2.2 c2.2.2 ha3]
  · intro x y hx hy
    rw [create_gradientF_pix n x y c1 c2 hx hy]
    exact ⟨gradientChannelF_dist n y c1.1 c2.1 hn hy ha1 hb1,
           gradientChannelF_dist n y c1.2.1 c2.2.1 hn hy ha2 hb2,
           gradientChannelF_dist n y c1.2.2 c2.2.2 hn hy ha3 hb3⟩
  · intro a b y z hyz hz hab
    exact gradientChannel_mono n y z a b hab hyz hz
  · intro a b y z hyz hz hba
    exact gradientChannel_anti n y z a b hba hyz hz
  · intro x hx
    obtain ⟨m, rfl⟩ : ∃ m, n = m + 1 := ⟨n - 1, by omega⟩
    have hm : m + 1 - 1 = m := by omega
    rw [create_gradientF_pix (m + 1) x (m + 1 - 1) c1 c2 hx (by omega), hm]
    exact ⟨gradientChannelF_last_dist m c1.1 c2.1 ha1 hb1,
           gradientChannelF_last_dist m c1.2.1 c2.2.1 ha2 hb2,
           gradientChannelF_last_dist m c1.2.2 c2.2.2 ha3 hb3⟩

/-- C3 witness: at size 16 with the script's colors, the top-left pixel is
exactly BLUE_LIGHT and the green channel of the bottom row is within 1 of
the ideal interpolation. -/
theorem create_gradientF_rows_witness :
    (create_gradientF 16 BLUE_LIGHT BLUE_DARK).pix 0 0 = ⟨10, 132, 255, 255⟩ ∧
    Nat.dist ((create_gradientF 16 BLUE_LIGHT BLUE_DARK).pix 7 15).g
      (gradientChannel 16 15 132 90) ≤ 1 :=
  ⟨(create_gradientF_rows 16 BLUE_LIGHT BLUE_DARK (by decide) (by decide) (by decide)).1
      0 (by decide),
   ((create_gradientF_rows 16 BLUE_LIGHT BLUE_DARK (by decide) (by decide) (by decide)).2.1
      7 15 (by decide) (by decide)).2.1⟩

/-- C3 counterexample: the original claim fails for the program's float
arithmetic.  At size 7 with both colors (255,255,255) the red channel reads
255 at row 0, dips to 254 at row 3 and returns to 255 at row 4, so the
column is not monotone in either direction; and at size 1 with colors
(255,255,255) and (0,0,0) the bottom (only) row is 255, not the second
color 0 up to rounding. -/
theorem create_gradientF_cex :
    ((create_gradientF 7 (255, 255, 255) (255, 255, 255)).pix 0 0).r = 255 ∧
    ((create_gradientF 7 (255, 255, 255) (255, 255, 255)).pix 0 3).r = 254 ∧
    ((create_gradientF 7 (255, 255, 255) (255, 255, 255)).pix 0 4).r = 255 ∧
    ((create_gradientF 1 (255, 255, 255) (0, 0, 0)).pix 0 (1 - 1)).r = 255 := by
  refine ⟨?_, ?_, ?_, ?_⟩
  · rw [create_gradientF_pix 7 0 0 (255, 255, 255) (255, 255, 255) (by omega) (by omega)]
    exact gradientChannelF_toNat_zero 7 255 255 (by omega)
  · rw [create_gradientF_pix 7 0 3 (255, 255, 255) (255, 255, 255) (by omega) (by omega)]
    show (gradientChannelF 7 3 255 255).toNat = 254
    rw [gradientChannelF_7_3]
    rfl
  · rw [create_gradientF_pix 7 0 4 (255, 255, 255) (255, 255, 255) (by omega) (by omega)]
    show (gradientChannelF 7 4 255 255).toNat = 255
    rw [gradientChannelF_7_4]
    rfl
  · rw [create_gradientF_pix 1 0 (1 - 1) (255, 255, 255) (0, 0, 0) (by omega) (by omega)]
    exact gradientChannelF_toNat_zero 1 255 0 (by omega)

/-- C8: for every size with a nonempty band (size >= 3, satisfied by all the
sizes the script generates), the float-faithful highlight image is a white
band over rows 0 .. size/3 - 1 whose alpha is 80 on the top row, weakly
decreases down the band, never exceeds 80, and is 0 on every row at or
below size/3. -/
theorem highlight_band_specF (s : Nat) (h3 : 3 ≤ s) :
    (∀ x, x < s → (highlight_imgF s).pix x 0 = ⟨255, 255, 255, 80⟩) ∧
    (∀ x y, x < s → y < s / 3 →
      (highlight_imgF s).pix x y = ⟨255, 255, 255, highlight_alphaF s y⟩) ∧
    (∀ y z, y ≤ z → highlight_alphaF s z ≤ highlight_alphaF s y) ∧
    (∀ y, highlight_alphaF s y ≤ 80) ∧
    (∀ x y, s / 3 ≤ y → ((highlight_imgF s).pix x y).a = 0) := by
  refine ⟨?_, ?_, ?_, ?_, ?_⟩
  · intro x hx
    have ht : 0 < s / 3 := by omega
    have h80 := highlight_alphaF_top s h3
    simp [highlight_imgF, hx, ht, h80]
  · intro x y hx hy
    simp [highlight_imgF, hx, hy]
  · intro y z hyz
    exact highlight_alphaF_anti s hyz
  · intro y
    exact highlight_alphaF_le s y
  · intro x y hy
    have hc : ¬ (x < s ∧ y < s / 3) := by omega
    simp [highlight_imgF, hc]

/-- C8 witness: at size 128 the top row of the highlight is white with
alpha 80 and row 42 (the first row past the band) carries no highlight. -/
theorem highlight_band_specF_witness :
    (highlight_imgF 128).pix 0 0 = ⟨255, 255, 255, 80⟩ ∧
    ((highlight_imgF 128).pix 5 42).a = 0 :=
  ⟨(highlight_band_specF 128 (by decide)).1 0 (by decide),
   (highlight_band_specF 128 (by decide)).2.2.2.2 5 42 (by decide)⟩
